import Mathlib

/-!
Verification of the explainability-rs core: the node/merge/export subsystem.

The embedding follows the final, generic variant of the source:
`impl_arithmetic` in src/macros.rs (the merge engine, instantiated once per
built-in operator kind), `OperationGraph::from_op` / `to_graphviz` in
src/visualization.rs (graph extraction and export), and the node model of
src/lib.rs.  Arena references are modelled as indices into an append-only
list of nodes: `std::ptr::eq` identity becomes index equality, and a
freshly allocated node gets index `arena.length`.  The scalar type `Num`
(f32 in the source, generic in the final variant) is modelled as `Rat`.
-/

namespace Explain

/-- The four built-in operator kinds: `Sum`, `Difference`, `Product`,
`Quotient` in the source's `OperationType`.  `impl_arithmetic` is
instantiated once for each of them. -/
inductive BinKind where
  | sum
  | difference
  | product
  | quotient
deriving DecidableEq, Repr

/-- The arithmetic function `$operator` associated with each kind. -/
def BinKind.opFun : BinKind → Rat → Rat → Rat
  | .sum => fun a b => a + b
  | .difference => fun a b => a - b
  | .product => fun a b => a * b
  | .quotient => fun a b => a / b

/-- `OperationType` of the final source variant: `Source { value }`, the
four arithmetic variants (uniformly encoded as `Bin k value history`), and
`Other` (extension-operator nodes, carrying the operator display symbol).
`history` entries are arena indices (references to prior nodes). -/
inductive OperationType where
  | Source (value : Rat)
  | Bin (k : BinKind) (value : Rat) (history : List Nat)
  | Other (symbol : String) (value : Rat) (history : List Nat)
deriving DecidableEq, Repr

/-- `OperationType::value()` from src/lib.rs. -/
def OperationType.value : OperationType → Rat
  | .Source v => v
  | .Bin _ v _ => v
  | .Other _ v _ => v

/-- The raw history field (empty for `Source`, which stores none). -/
def OperationType.historyOf : OperationType → List Nat
  | .Source _ => []
  | .Bin _ _ h => h
  | .Other _ _ h => h

/-- Whether the node is a `Source` leaf. -/
def OperationType.isSource : OperationType → Bool
  | .Source _ => true
  | _ => false

/-- Whether the node has the arithmetic kind `k` (matches the
`$OpVariant` pattern of `impl_arithmetic`). -/
def OperationType.kindIs (k : BinKind) : OperationType → Bool
  | .Bin kk _ _ => kk = k
  | _ => false

/-- The `Operation` struct of src/lib.rs: an operation-type payload plus an
optional reason.  The `_allocator` back-reference is the ambient arena and
is not part of the per-node data. -/
structure NodeData where
  op : OperationType
  reason : Option String
deriving DecidableEq, Repr

/-- `variant_symbol` from src/lib.rs (`Source` renders as a blank token,
each arithmetic kind as its own short token, `Other` as the extension
operator's own symbol). -/
def NodeData.variantSymbol (n : NodeData) : String :=
  match n.op with
  | .Source _ => " "
  | .Bin .sum _ _ => " (+) "
  | .Bin .difference _ _ => " (-) "
  | .Bin .product _ _ => " (*) "
  | .Bin .quotient _ _ => " (/) "
  | .Other s _ _ => s

/-- The merge engine: `impl_arithmetic` from src/macros.rs, instantiated at
kind `k`.  `selfIdx`/`otherIdx` are the arena indices of `self`/`other`
(the references that the Rust code stores in history lists).  The match
arms reproduce the source's four cases in their exact order, with
`match_unordered!` expanded to its two alternatives, tried left to right:
case A (`Source` with the matching `$OpVariant`, either order), case B
(two `Source`s), case C (two `$OpVariant`s, at least one without a reason,
either order, the reasonless pattern tried in second position first), and
the fallback case D.  The `if` guards encode that the Rust patterns only
match the one variant `$OpVariant` the macro was instantiated with. -/
def add_internal (k : BinKind) (self other : NodeData) (selfIdx otherIdx : Nat) :
    NodeData :=
  let v := k.opFun self.op.value other.op.value
  match self.op, other.op with
  | .Source _, .Bin k2 _ hist =>
      if k2 = k then { op := .Bin k v (hist ++ [selfIdx]), reason := other.reason }
      else { op := .Bin k v [selfIdx, otherIdx], reason := none }
  | .Bin k1 _ hist, .Source _ =>
      if k1 = k then { op := .Bin k v (hist ++ [otherIdx]), reason := self.reason }
      else { op := .Bin k v [selfIdx, otherIdx], reason := none }
  | .Source _, .Source _ =>
      { op := .Bin k v [selfIdx, otherIdx], reason := none }
  | .Bin k1 _ hist1, .Bin k2 _ hist2 =>
      if k1 = k ∧ k2 = k then
        match self.reason, other.reason with
        | _, none => { op := .Bin k v (hist1 ++ hist2), reason := self.reason }
        | none, some r => { op := .Bin k v (hist2 ++ hist1), reason := some r }
        | some _, some _ => { op := .Bin k v [selfIdx, otherIdx], reason := none }
      else { op := .Bin k v [selfIdx, otherIdx], reason := none }
  | _, _ =>
      { op := .Bin k v [selfIdx, otherIdx], reason := none }

/-- The annotated application form (`overload_operator_commented` in
src/macros.rs / `Add<OpTuple>` in src/lib.rs): run the plain merge, then
set the supplied override reason on the fresh node before returning it. -/
def add_commented (k : BinKind) (self other : NodeData) (selfIdx otherIdx : Nat)
    (reason : String) : NodeData :=
  let res := add_internal k self other selfIdx otherIdx
  { res with reason := some reason }

/-- An arena/session: the append-only owner of all nodes of one
computation.  A node reference is an index into this list. -/
abbrev Arena := List NodeData

/-- `Operation::new` / `new_with_reason`: allocate a fresh `Source` node,
returning the grown arena and the new node's reference. -/
def newSource (arena : Arena) (v : Rat) (reason : Option String) : Arena × Nat :=
  (List.append arena [{ op := .Source v, reason := reason }], List.length arena)

/-- The operator overload at arena level: look both references up, merge,
and allocate the result (`self._allocator.alloc(...)`).  `none` models a
dangling reference, which the Rust borrow checker rules out. -/
def addOp (k : BinKind) (arena : Arena) (i j : Nat) : Option (Arena × Nat) :=
  match arena[i]?, arena[j]? with
  | some a, some b =>
      some (List.append arena [add_internal k a b i j], List.length arena)
  | _, _ => none

/-- Arena-level annotated merge (`self + (other, "reason")`). -/
def addOpCommented (k : BinKind) (arena : Arena) (i j : Nat) (r : String) :
    Option (Arena × Nat) :=
  match arena[i]?, arena[j]? with
  | some a, some b =>
      some (List.append arena [add_commented k a b i j r], List.length arena)
  | _, _ => none

/-- Modelled from the spec: the `history(node)` accessor of the node model
(src/lib.rs of the final generic variant, not present under src/; only its
caller in src/visualization.rs is).  It returns the ordered operand list
and fails fatally on a `Source` node; the fatal fault is modelled as
`none`. -/
def history_acc (n : NodeData) : Option (List Nat) :=
  match n.op with
  | .Source _ => none
  | .Bin _ _ h => some h
  | .Other _ _ h => some h

/-- First index of `target` in `nodes`: the
`nodes.iter().enumerate().find(|(_, i_op)| ptr::eq(i_op, prior))` identity
lookup of `OperationGraph::from_op`, with reference identity modelled as
arena-index equality. -/
def findPos (nodes : List Nat) (target : Nat) : Option Nat :=
  match nodes with
  | [] => none
  | x :: xs => if x = target then some 0 else Option.map (· + 1) (findPos xs target)

/-- The inner `for &prior in node.history()` loop of `from_op`: for each
history entry, reuse its discovered index if the identity lookup finds it,
otherwise push it and use the fresh index; in both cases record an edge
`(operand position, current parent)`. -/
def processHistory (nodes : List Nat) (edges : List (Nat × Nat)) (parent : Nat) :
    List Nat → List Nat × List (Nat × Nat)
  | [] => (nodes, edges)
  | prior :: rest =>
      match findPos nodes prior with
      | some pos => processHistory nodes (List.append edges [(pos, parent)]) parent rest
      | none =>
          processHistory (List.append nodes [prior])
            (List.append edges [(List.length nodes, parent)]) parent rest

/-- The discovery `loop` of `OperationGraph::from_op`, with explicit fuel:
process the node at `current_parent` (a `Source` contributes nothing, any
other node feeds its history through the identity lookup), advance, and
stop once `current_parent` reaches the end of the discovery list.  `none`
means the fuel ran out or a reference was dangling, neither of which the
Rust code can encounter. -/
def extractLoop (arena : Arena) : Nat → List Nat → List (Nat × Nat) → Nat →
    Option (List Nat × List (Nat × Nat))
  | 0, _, _, _ => none
  | fuel + 1, nodes, edges, current_parent =>
      match nodes[current_parent]? with
      | none => none
      | some opIdx =>
          match arena[opIdx]? with
          | none => none
          | some nd =>
              let st :=
                if nd.op.isSource then (nodes, edges)
                else processHistory nodes edges current_parent nd.op.historyOf
              if current_parent + 1 ≥ List.length st.1 then some st
              else extractLoop arena fuel st.1 st.2 (current_parent + 1)

/-- Lexicographic `≤` on edges, the order `Vec::sort` uses on
`(usize, usize)`. -/
def edgeLE (a b : Nat × Nat) : Bool :=
  Nat.blt a.1 b.1 || (a.1 = b.1 && Nat.ble a.2 b.2)

/-- Ordered insertion for `sortEdges`. -/
def insertEdge (e : Nat × Nat) : List (Nat × Nat) → List (Nat × Nat)
  | [] => [e]
  | x :: xs => if edgeLE e x then e :: x :: xs else x :: insertEdge e xs

/-- `edges.sort()`: stable sort in lexicographic order. -/
def sortEdges : List (Nat × Nat) → List (Nat × Nat)
  | [] => []
  | e :: es => insertEdge e (sortEdges es)

/-- `edges.dedup()`: drop consecutive duplicates. -/
def dedupAdj : List (Nat × Nat) → List (Nat × Nat)
  | [] => []
  | [a] => [a]
  | a :: b :: rest =>
      if a = b then dedupAdj (b :: rest) else a :: dedupAdj (b :: rest)

/-- `OperationGraph::from_op` (src/visualization.rs): discovery from the
root followed by the final `edges.sort(); edges.dedup()` pass.  The node
list holds arena indices in discovery order; edges are
`(operand position, consumer position)` in the node list. -/
def from_op (arena : Arena) (fuel : Nat) (root : Nat) :
    Option (List Nat × List (Nat × Nat)) :=
  Option.map (fun st => (st.1, dedupAdj (sortEdges st.2)))
    (extractLoop arena fuel [root] [] 0)

/-- `node_id` (src/visualization.rs): a unique identifier per node derived
from its stable arena address, modelled as the arena index. -/
def nodeId (arenaIdx : Nat) : String :=
  String.append "op" (toString arenaIdx)

/-- `node_label` (src/visualization.rs): `"{value}{variant}{reason}"`,
with the quoted reason suffix only when a reason is set. -/
def nodeLabel (n : NodeData) : String :=
  let reasonPart :=
    match n.reason with
    | some r => String.append " \"" (String.append r "\"")
    | none => ""
  String.append (toString n.op.value) (String.append n.variantSymbol reasonPart)

/-- One node statement of the diagram text. -/
def nodeLine (arena : Arena) (arenaIdx : Nat) : String :=
  match arena[arenaIdx]? with
  | some n =>
      String.append "    " (String.append (nodeId arenaIdx)
        (String.append "[label=\"" (String.append (nodeLabel n) "\"];\n")))
  | none => ""

/-- One directed edge statement, operand to consumer. -/
def edgeLine (nodes : List Nat) (e : Nat × Nat) : String :=
  match nodes[e.1]?, nodes[e.2]? with
  | some a, some b =>
      String.append "    " (String.append (nodeId a)
        (String.append " -> " (String.append (nodeId b) ";\n")))
  | _, _ => ""

/-- Modelled from the spec: `to_graphviz` renders the extracted graph
through the external `dot::render` library, which is an external
collaborator; per spec section 6 the text is a graph identifier, one
uniquely-identified labelled statement per node, and one unlabelled
directed edge statement per edge. -/
def to_graphviz (arena : Arena) (fuel : Nat) (root : Nat) : Option String :=
  Option.map
    (fun g =>
      String.append "digraph backtraced \x7b\n"
        (String.append (String.join (List.map (nodeLine arena) g.1))
          (String.append (String.join (List.map (edgeLine g.1) g.2)) "\x7d\n")))
    (from_op arena fuel root)

/-- Well-formed arena: every node's history references only nodes that
already existed when it was constructed (strictly smaller indices).  This
is the DAG invariant the append-only arena guarantees by construction. -/
def ArenaWF (arena : Arena) : Prop :=
  ∀ i : Fin (List.length arena),
    ∀ x ∈ (List.get arena i).op.historyOf, x < i.val

instance (arena : Arena) : Decidable (ArenaWF arena) := by
  unfold ArenaWF
  infer_instance

/-- The full `match_unordered!` pattern of case A, as a predicate: exactly
one operand is `Source` and the other has the operator's kind,
in either operand position. -/
def caseA_matches (k : BinKind) (a b : NodeData) : Prop :=
  (a.op.isSource = true ∧ b.op.kindIs k = true) ∨
    (a.op.kindIs k = true ∧ b.op.isSource = true)

/-- The pattern of case B: both operands are `Source`. -/
def caseB_matches (a b : NodeData) : Prop :=
  a.op.isSource = true ∧ b.op.isSource = true

/-- The full `match_unordered!` pattern of case C: both operands have the
operator's kind and at least one carries no reason. -/
def caseC_matches (k : BinKind) (a b : NodeData) : Prop :=
  a.op.kindIs k = true ∧ b.op.kindIs k = true ∧
    (a.reason = none ∨ b.reason = none)

instance (k : BinKind) (a b : NodeData) : Decidable (caseA_matches k a b) := by
  unfold caseA_matches
  infer_instance

instance (a b : NodeData) : Decidable (caseB_matches a b) := by
  unfold caseB_matches
  infer_instance

instance (k : BinKind) (a b : NodeData) : Decidable (caseC_matches k a b) := by
  unfold caseC_matches
  infer_instance

/-- `Source` operand `6.0` for the non-commutativity example
(src/testing.rs `non_commutative`). -/
def s6 : NodeData := { op := .Source 6, reason := none }

/-- `Source` operand `3.0` for the non-commutativity example. -/
def s3 : NodeData := { op := .Source 3, reason := none }

/-- `(a ÷ b) ÷ b` with `a = 6`, `b = 3`: the left-to-right evaluation the
test `non_commutative` performs. -/
def divLeftNode : NodeData :=
  add_internal .quotient (add_internal .quotient s6 s3 0 1) s3 2 1

/-- `a ÷ (b ÷ b)`: the wrong, reordered evaluation. -/
def divRightNode : NodeData :=
  add_internal .quotient s6 (add_internal .quotient s3 s3 1 1) 0 2

/-- A `Sum`-kind operand without a reason (history holds reference 0). -/
def cSelf : NodeData := { op := .Bin .sum 1 [0], reason := none }

/-- A `Sum`-kind operand with a reason (history holds reference 1). -/
def cOther : NodeData := { op := .Bin .sum 2 [1], reason := some "r" }

/-- A `Sum`-kind operand carrying reason "p". -/
def dSelf : NodeData := { op := .Bin .sum 1 [0], reason := some "p" }

/-- A `Sum`-kind operand carrying reason "q". -/
def dOther : NodeData := { op := .Bin .sum 2 [1], reason := some "q" }

/-- A `Source` operand carrying its own reason, to be absorbed by case A. -/
def wSrc : NodeData := { op := .Source 6, reason := some "s" }

/-- A `Quotient`-kind operand with history `[0, 1]` and reason "q". -/
def wQuot : NodeData := { op := .Bin .quotient 2 [0, 1], reason := some "q" }

/-- A reasonless `Source` node holding `1.0`. -/
def srcOne : NodeData := { op := .Source 1, reason := none }

/-- The session for `x = s + s`: `s` at index 0, `x = s + s` at index 1
(case B gives `x` the history `[0, 0]`, the same reference twice). -/
def selfSumArena : Arena :=
  [srcOne, add_internal .sum srcOne srcOne 0 0]

/-- A session with two distinct `Source` nodes of equal value and their
sum: equal-valued but separately constructed operands stay distinct. -/
def twoSourceArena : Arena :=
  [srcOne, { op := .Source 1, reason := some "other" },
   add_internal .sum srcOne { op := .Source 1, reason := some "other" } 0 1]

/-- C1: every merge case computes `value = self.value OP other.value` in
left-to-right operand order, for every operand pair and every built-in
operator; in particular `(6 ÷ 3) ÷ 3` evaluates to `2/3`, which differs
from the reordered `6 ÷ (3 ÷ 3) = 6`. -/
theorem merge_value_invariance :
    (∀ (k : BinKind) (a b : NodeData) (i j : Nat),
        (add_internal k a b i j).op.value = k.opFun a.op.value b.op.value) ∧
    divLeftNode.op.value = (6 / 3 : Rat) / 3 ∧
    divRightNode.op.value = (6 : Rat) / (3 / 3) ∧
    divLeftNode.op.value ≠ divRightNode.op.value := by
  refine ⟨?_, by rfl, by rfl, ?_⟩
  case refine_2 =>
    simp [divLeftNode, divRightNode, add_internal, s6, s3,
      OperationType.value, BinKind.opFun]
    norm_num
  intro k a b i j
  cases ha : a.op <;> cases hb : b.op <;>
    simp only [add_internal, ha, hb] <;>
    (try split) <;>
    (try split) <;>
    rfl

/-- C2: whenever exactly one operand is `Source` and the other has the
operator's kind, in either operand position, the result keeps the kinded
operand's history with the `Source` operand's reference appended last, and
carries the kinded operand's reason unchanged (the `Source` reason is
discarded). -/
theorem merge_case_A (k : BinKind) (a b : NodeData) (i j : Nat) :
    (∀ v kv h, a.op = .Source v → b.op = .Bin k kv h →
      add_internal k a b i j =
        { op := .Bin k (k.opFun v kv) (h ++ [i]), reason := b.reason }) ∧
    (∀ v kv h, b.op = .Source v → a.op = .Bin k kv h →
      add_internal k a b i j =
        { op := .Bin k (k.opFun kv v) (h ++ [j]), reason := a.reason }) := by
  constructor <;> intro v kv h hs hk <;>
    simp [add_internal, hs, hk, OperationType.value]

/-- C2 witness: absorbing the `Source` `6` (reason "s") into the
`Quotient` node with history `[0, 1]` and reason "q" appends reference 5
and keeps reason "q". -/
theorem merge_case_A_witness :
    add_internal .quotient wSrc wQuot 5 9 =
      { op := .Bin .quotient (BinKind.opFun .quotient 6 2) ([0, 1] ++ [5]),
        reason := some "q" } :=
  (merge_case_A .quotient wSrc wQuot 5 9).1 6 2 [0, 1] rfl rfl

/-- C3 counterexample: both operands have kind `Sum` and `self` has no
reason, so case C fires, but because `self` matches the reasonless
alternative of `match_unordered!`, the result history is `other`'s history
followed by `self`'s — `[1, 0]`, not the claimed `self`-then-`other`
order `[0, 1]`. -/
theorem merge_case_C_counterexample :
    cSelf.op.kindIs .sum = true ∧ cOther.op.kindIs .sum = true ∧
    cSelf.reason = none ∧
    (add_internal .sum cSelf cOther 2 3).op.historyOf = [1, 0] ∧
    cSelf.op.historyOf ++ cOther.op.historyOf = [0, 1] ∧
    ([1, 0] : List Nat) ≠ [0, 1] := by
  decide

/-- C3 amended: when both operands have the operator's kind and at least
one has no reason, the result's reason is whichever reason is present
(`None` if both are absent), and the history is the concatenation of both
operands' histories with the reason-keeping side first: `self ++ other`
when `other` has no reason, `other ++ self` when only `self` lacks one. -/
theorem merge_case_C_amended (k : BinKind) (a b : NodeData) (i j : Nat)
    (v1 v2 : Rat) (h1 h2 : List Nat)
    (ha : a.op = .Bin k v1 h1) (hb : b.op = .Bin k v2 h2) :
    (b.reason = none →
      add_internal k a b i j =
        { op := .Bin k (k.opFun v1 v2) (h1 ++ h2), reason := a.reason }) ∧
    (∀ r, a.reason = none → b.reason = some r →
      add_internal k a b i j =
        { op := .Bin k (k.opFun v1 v2) (h2 ++ h1), reason := some r }) := by
  constructor
  · intro hbr
    simp [add_internal, ha, hb, hbr, OperationType.value]
  · intro r har hbr
    simp [add_internal, ha, hb, har, hbr, OperationType.value]

/-- C3 amended witness: merging the reasonless `Sum` (history `[0]`) with
the reason-carrying `Sum` (history `[1]`, reason "r") yields history
`[1] ++ [0]` and reason "r". -/
theorem merge_case_C_amended_witness :
    add_internal .sum cSelf cOther 2 3 =
      { op := .Bin .sum (BinKind.opFun .sum 1 2) ([1] ++ [0]),
        reason := some "r" } :=
  (merge_case_C_amended .sum cSelf cOther 2 3 1 2 [0] [1] rfl rfl).2 "r" rfl rfl

/-- C5: the annotated application form returns exactly the plain merge
result with its reason replaced by the supplied override string; the
operation payload (kind, value, history) is untouched. -/
theorem commented_merge_overrides_reason (k : BinKind) (a b : NodeData)
    (i j : Nat) (r : String) :
    add_commented k a b i j r =
      { add_internal k a b i j with reason := some r } ∧
    (add_commented k a b i j r).op = (add_internal k a b i j).op ∧
    (add_commented k a b i j r).reason = some r :=
  ⟨rfl, rfl, rfl⟩

/-- C9: the history accessor faults (returns the `none` fault signal) on
every `Source` node and returns the ordered operand list on every other
node; it is safe exactly when the node's kind is not `Source`. -/
theorem history_accessor_faults_on_source (n : NodeData) :
    ((history_acc n).isSome = true ↔ n.op.isSource = false) ∧
    history_acc n =
      (if n.op.isSource then none else some n.op.historyOf) := by
  cases n with
  | mk op reason =>
      cases op <;> simp [history_acc, OperationType.isSource, OperationType.historyOf]

/-- C4: the fallback fires exactly when both operands have the operator's
kind but both carry reasons, or the operands' kinds fit none of the
earlier patterns (cases are tried in the fixed order A, B, C, D, first
match winning); it then produces exactly the two-element history
`[self, other]` without flattening, and no reason. -/
theorem merge_case_D (k : BinKind) (a b : NodeData) (i j : Nat) :
    ((¬caseA_matches k a b ∧ ¬caseB_matches a b ∧ ¬caseC_matches k a b) ↔
      ((a.op.kindIs k = true ∧ b.op.kindIs k = true ∧
        a.reason ≠ none ∧ b.reason ≠ none) ∨
       (¬caseA_matches k a b ∧ ¬caseB_matches a b ∧
        ¬(a.op.kindIs k = true ∧ b.op.kindIs k = true)))) ∧
    ((¬caseA_matches k a b ∧ ¬caseB_matches a b ∧ ¬caseC_matches k a b) →
      add_internal k a b i j =
        { op := .Bin k (k.opFun a.op.value b.op.value) [i, j],
          reason := none }) := by
  constructor
  · cases ha : a.op <;> cases hb : b.op <;>
      simp [caseA_matches, caseB_matches, caseC_matches, ha, hb,
        OperationType.isSource, OperationType.kindIs] <;>
      tauto
  · rintro ⟨hA, hB, hC⟩
    cases ha : a.op <;> cases hb : b.op <;>
      simp only [caseA_matches, caseB_matches, caseC_matches, ha, hb,
        OperationType.isSource, OperationType.kindIs, decide_eq_true_eq,
        not_and, not_or, not_true, not_false_iff, and_true, true_and,
        and_imp] at hA hB hC <;>
      simp_all [add_internal, OperationType.value] <;>
      first
      | rfl
      | (rename_i k1 _ _ k2 _ _
         by_cases hk1 : k1 = k <;> by_cases hk2 : k2 = k <;>
           simp_all <;>
           rcases har : a.reason with _ | ra <;>
             rcases hbr : b.reason with _ | rb <;>
             simp_all)

/-- C4 witness: two `Sum` operands both carrying reasons fall through to
the fallback, producing history `[0, 1]` and no reason. -/
theorem merge_case_D_witness :
    add_internal .sum dSelf dOther 0 1 =
      { op := .Bin .sum (BinKind.opFun .sum dSelf.op.value dOther.op.value)
          [0, 1],
        reason := none } :=
  (merge_case_D .sum dSelf dOther 0 1).2 (by decide)

/-- C10: a merge (plain or annotated) leaves every node that already
existed in the session untouched — the session after the call is the old
session with exactly one freshly allocated node appended, returned by
reference to the fresh index. -/
theorem merge_preserves_operands (k : BinKind) (arena : Arena) (i j : Nat)
    (r : String) (hi : i < List.length arena) (hj : j < List.length arena) :
    (addOp k arena i j).isSome = true ∧
    (addOpCommented k arena i j r).isSome = true ∧
    (∀ arena2 idx,
      addOp k arena i j = some (arena2, idx) ∨
        addOpCommented k arena i j r = some (arena2, idx) →
      idx = List.length arena ∧
        List.length arena2 = List.length arena + 1 ∧
        ∀ m, m < List.length arena → arena2[m]? = arena[m]?) := by
  have hgi : arena[i]? = some arena[i] := List.getElem?_eq_getElem hi
  have hgj : arena[j]? = some arena[j] := List.getElem?_eq_getElem hj
  refine ⟨by simp [addOp, hgi, hgj], by simp [addOpCommented, hgi, hgj], ?_⟩
  rintro arena2 idx (hcall | hcall) <;>
    simp only [addOp, addOpCommented, hgi, hgj, Option.some.injEq,
      Prod.mk.injEq, List.append_eq] at hcall <;>
    obtain ⟨h2, hidx⟩ := hcall <;>
    subst h2 <;>
    refine ⟨hidx.symm, by simp, ?_⟩ <;>
    intro m hm <;>
    exact List.getElem?_append_left hm

/-- C10 witness: merging the two sources of the `6 ÷ 3` session succeeds
in both the plain and the annotated form. -/
theorem merge_preserves_operands_witness :
    (addOp .quotient [s6, s3] 0 1).isSome = true ∧
    (addOpCommented .quotient [s6, s3] 0 1 "w").isSome = true :=
  ⟨(merge_preserves_operands .quotient [s6, s3] 0 1 "w" (by decide)
      (by decide)).1,
   (merge_preserves_operands .quotient [s6, s3] 0 1 "w" (by decide)
      (by decide)).2.1⟩

/-- C6: extracting `x = s + s` (the same `Source` operand twice) yields
the node list `[x, s]` — exactly one entry for `s` — and, after the final
sort-and-dedup pass, exactly the single edge `(s-index, x-index)`; two
separately constructed sources of equal value stay distinct entries,
because the lookup uses reference identity, not value equality. -/
theorem extraction_dedup_law :
    from_op selfSumArena 2 1 = some ([1, 0], [(1, 0)]) ∧
    List.count 0 [1, 0] = 1 ∧
    List.count (1, 0) [(1, 0)] = 1 ∧
    from_op twoSourceArena 3 2 = some ([2, 0, 1], [(1, 0), (2, 0)]) := by
  refine ⟨by rfl, by decide, by decide, by rfl⟩

lemma findPos_eq_none {nodes : List Nat} {t : Nat}
    (h : findPos nodes t = none) : t ∉ nodes := by
  induction nodes with
  | nil => simp
  | cons x xs ih =>
      rw [findPos] at h
      by_cases hx : x = t
      · simp [hx] at h
      · rcases hfp : findPos xs t with _ | p
        · simp [List.mem_cons]
          exact ⟨fun he => hx he.symm, ih hfp⟩
        · rw [hfp] at h
          simp [hx] at h

lemma processHistory_nodup (hist : List Nat) :
    ∀ (nodes : List Nat) (edges : List (Nat × Nat)) (parent : Nat),
      nodes.Nodup → (processHistory nodes edges parent hist).1.Nodup := by
  induction hist with
  | nil =>
      intro nodes edges parent hn
      simpa [processHistory] using hn
  | cons prior rest ih =>
      intro nodes edges parent hn
      rw [processHistory]
      rcases hfp : findPos nodes prior with _ | pos
      · refine ih _ _ _ ?_
        have hmem : prior ∉ nodes := findPos_eq_none hfp
        simp [List.nodup_append, hn, hmem]
      · exact ih _ _ _ hn

lemma processHistory_bounded (hist : List Nat) :
    ∀ (nodes : List Nat) (edges : List (Nat × Nat)) (parent N : Nat),
      (∀ x ∈ nodes, x < N) → (∀ x ∈ hist, x < N) →
      ∀ x ∈ (processHistory nodes edges parent hist).1, x < N := by
  induction hist with
  | nil =>
      intro nodes edges parent N hb _
      simpa [processHistory] using hb
  | cons prior rest ih =>
      intro nodes edges parent N hb hh
      rw [processHistory]
      rcases hfp : findPos nodes prior with _ | pos
      · refine ih _ _ _ _ ?_ ?_
        · intro x hx
          rcases List.mem_append.mp hx with hx | hx
          · exact hb x hx
          · rw [List.mem_singleton] at hx
            rw [hx]
            exact hh prior (List.mem_cons_self prior rest)
        · intro x hx
          exact hh x (List.mem_cons_of_mem _ hx)
      · exact ih _ _ _ _ hb fun x hx => hh x (List.mem_cons_of_mem _ hx)

lemma nodup_bounded_length {l : List Nat} {N : Nat}
    (hn : l.Nodup) (hb : ∀ x ∈ l, x < N) : l.length ≤ N := by
  have hcard : l.toFinset.card = l.length := List.toFinset_card_of_nodup hn
  have hsub : l.toFinset ⊆ Finset.range N := by
    intro x hx
    rw [List.mem_toFinset] at hx
    exact Finset.mem_range.mpr (hb x hx)
  calc l.length = l.toFinset.card := hcard.symm
    _ ≤ (Finset.range N).card := Finset.card_le_card hsub
    _ = N := Finset.card_range N

lemma extractLoop_isSome (arena : Arena)
    (hwf : ∀ i : Fin (List.length arena),
      ∀ x ∈ (List.get arena i).op.historyOf, x < List.length arena) :
    ∀ (fuel : Nat) (nodes : List Nat) (edges : List (Nat × Nat)) (cp : Nat),
      nodes.Nodup → (∀ x ∈ nodes, x < List.length arena) →
      cp < nodes.length → List.length arena ≤ fuel + cp →
      (extractLoop arena fuel nodes edges cp).isSome = true := by
  intro fuel
  induction fuel with
  | zero =>
      intro nodes edges cp hn hb hcp hfuel
      have hlen : nodes.length ≤ List.length arena := nodup_bounded_length hn hb
      omega
  | succ fuel ih =>
      intro nodes edges cp hn hb hcp hfuel
      have hlen : nodes.length ≤ List.length arena := nodup_bounded_length hn hb
      have hget : nodes[cp]? = some nodes[cp] := List.getElem?_eq_getElem hcp
      have hop : nodes[cp] < List.length arena := hb _ (List.getElem_mem hcp)
      have hget2 : arena[nodes[cp]]? = some arena[nodes[cp]] :=
        List.getElem?_eq_getElem hop
      rw [extractLoop]
      simp only [hget, hget2]
      set nd := arena[nodes[cp]] with hnd
      have hhist : ∀ x ∈ nd.op.historyOf, x < List.length arena := by
        intro x hx
        exact hwf ⟨nodes[cp], hop⟩ x (by simpa [List.get_eq_getElem, hnd] using hx)
      set st :=
        if nd.op.isSource then (nodes, edges)
        else processHistory nodes edges cp nd.op.historyOf with hst
      have hstn : st.1.Nodup := by
        rw [hst]
        split
        · exact hn
        · exact processHistory_nodup _ _ _ _ hn
      have hstb : ∀ x ∈ st.1, x < List.length arena := by
        rw [hst]
        split
        · exact hb
        · exact processHistory_bounded _ _ _ _ _ hb hhist
      by_cases hdone : cp + 1 ≥ st.1.length
      · simp [hdone]
      · have hlt : cp + 1 < st.1.length := by omega
        have hstlen : st.1.length ≤ List.length arena :=
          nodup_bounded_length hstn hstb
        rw [if_neg hdone]
        exact ih st.1 st.2 (cp + 1) hstn hstb hlt (by omega)

/-- C7: graph extraction terminates on every well-formed session the
system can construct — with fuel equal to the session size, the discovery
loop completes (each reachable node is enqueued at most once, so the
discovery list never outgrows the session). -/
theorem extraction_terminates (arena : Arena) (root : Nat)
    (hwf : ArenaWF arena) (hroot : root < List.length arena) :
    (from_op arena (List.length arena) root).isSome = true := by
  have hwf2 : ∀ i : Fin (List.length arena),
      ∀ x ∈ (List.get arena i).op.historyOf, x < List.length arena := by
    intro i x hx
    exact lt_trans (hwf i x hx) i.isLt
  have hloop := extractLoop_isSome arena hwf2 (List.length arena) [root] [] 0
    (by simp) (by simpa using hroot) (by simp) (by omega)
  unfold from_op
  rcases h : extractLoop arena (List.length arena) [root] [] 0 with _ | st
  · rw [h] at hloop
    simp at hloop
  · simp

/-- C7 witness: extraction of the two-node `x = s + s` session completes
within fuel 2. -/
theorem extraction_terminates_witness :
    (from_op selfSumArena (List.length selfSumArena) 1).isSome = true :=
  extraction_terminates selfSumArena 1 (by decide) (by decide)

/-- C8: exporting the same root twice within the same session yields
byte-for-byte identical diagram text — the extraction order is a function
of the graph alone, and node identifiers come from the stable arena
addresses, which do not change between the two calls. -/
theorem export_deterministic (arena : Arena) (fuel root : Nat)
    (s1 s2 : String)
    (h1 : to_graphviz arena fuel root = some s1)
    (h2 : to_graphviz arena fuel root = some s2) : s1 = s2 :=
  Option.some.inj (h1.symm.trans h2)

/-- C8 witness: two renders of the `x = s + s` session produce the same
text. -/
theorem export_deterministic_witness :
    (to_graphviz selfSumArena 2 1).getD "" =
      (to_graphviz selfSumArena 2 1).getD "" :=
  export_deterministic selfSumArena 2 1
    ((to_graphviz selfSumArena 2 1).getD "")
    ((to_graphviz selfSumArena 2 1).getD "")
    (by rfl) (by rfl)

end Explain
